import Mathlib

/-!
Shallow embedding of `src/surplus_agents/pipelines/orchestrator/pipeline.py`
(PipelineOrchestrator, PipelineStage, StageResult), together with theorems
about the pipeline execution engine.

Modelling conventions:
* The pipeline data value has an abstract type `α`; Python's dynamically
  typed payloads are not otherwise constrained by the orchestrator.
* A stage handler is `Nat → α → Except String α`.  The `Nat` argument is the
  1-based invocation count for the stage, modelling stateful Python callables
  (closures that behave differently on successive calls); the orchestrator
  itself always passes the same data argument to every attempt, which is why
  the data argument of the handler is the same in every attempt.  A raised
  exception is modelled as `Except.error msg` (`str(e)`).
* Wall-clock readings (`time.time()`, `datetime.now`) and
  `traceback.format_exc()` are oracles supplied by a `World`; the audit
  logger and the artifact write can throw, which the `World` also decides.
* The externally visible calls (audit `log`, result `save`) are collected in
  an effect trace, in call order.
-/

namespace SurplusPipeline

/-- One audit `details` value (Python dict values used by the orchestrator). -/
inductive DValue (α : Type) where
  | nat : Nat → DValue α
  | str : String → DValue α
  | optStr : Option String → DValue α
  | data : Option α → DValue α
  deriving DecidableEq

/-- One call to `audit_logger.log(...)` with its keyword arguments. -/
structure AuditEvent (α : Type) where
  action : String
  actor : String
  object_type : String
  object_id : String
  result : String
  details : List (String × DValue α)
  deriving DecidableEq

/-- `PipelineStage`: one registered stage (dataclass of the source). -/
structure PipelineStage (α : Type) where
  name : String
  handler : Nat → α → Except String α
  description : String
  required : Bool
  retry_on_error : Bool
  max_retries : Int

/-- `StageResult`: result of executing one stage (dataclass of the source). -/
structure StageResult (α : Type) where
  stage_name : String
  status : String
  output : Option α
  error : Option String
  duration_ms : Nat
  timestamp : String
  deriving DecidableEq

/-- `StageResult.to_dict` (dataclasses.asdict): field name / value pairs. -/
def StageResult.to_dict (r : StageResult α) : List (String × DValue α) :=
  [("stage_name", DValue.str r.stage_name),
   ("status", DValue.str r.status),
   ("output", DValue.data r.output),
   ("error", DValue.optStr r.error),
   ("duration_ms", DValue.nat r.duration_ms),
   ("timestamp", DValue.str r.timestamp)]

/-- The `metadata` block of the pipeline result dictionary. -/
structure Metadata where
  start_time : String
  end_time : String
  duration_ms : Nat
  total_stages : Nat
  successful_stages : Nat
  failed_stages : Nat
  deriving DecidableEq

/-- The `metadata` dict as key / value pairs (for the completion audit event). -/
def metaPairs (α : Type) (m : Metadata) : List (String × DValue α) :=
  [("start_time", DValue.str m.start_time),
   ("end_time", DValue.str m.end_time),
   ("duration_ms", DValue.nat m.duration_ms),
   ("total_stages", DValue.nat m.total_stages),
   ("successful_stages", DValue.nat m.successful_stages),
   ("failed_stages", DValue.nat m.failed_stages)]

/-- The pipeline result dictionary built by `execute`. -/
structure PipelineResult (α : Type) where
  pipeline : String
  status : String
  mode : String
  output : α
  stages : List (StageResult α)
  metadata : Metadata
  deriving DecidableEq

/-- One externally visible call: an audit `log` or the artifact `save`. -/
inductive Effect (α : Type) where
  | audit : AuditEvent α → Effect α
  | save : String → PipelineResult α → Effect α
  deriving DecidableEq

/-- The audit events of a trace, in order. -/
def auditEvents : List (Effect α) → List (AuditEvent α)
  | [] => []
  | Effect.audit ev :: tl => ev :: auditEvents tl
  | Effect.save _ _ :: tl => auditEvents tl

/-- The save calls of a trace, in order, with their arguments. -/
def saveCalls : List (Effect α) → List (String × PipelineResult α)
  | [] => []
  | Effect.audit _ :: tl => saveCalls tl
  | Effect.save n r :: tl => (n, r) :: saveCalls tl

/-- The configuration part of a `PipelineOrchestrator` (`name`, `mode`,
whether `audit_logger` is set, and the registered stage list). -/
structure Orchestrator (α : Type) where
  name : String
  mode : String
  has_audit : Bool
  stages : List (PipelineStage α)

/-- Environment oracles: whether an audit call or the artifact save throws
(`none` = returns normally, `some msg` = raises `msg`), and the wall-clock /
traceback readings observed by stage `idx` and by the pipeline as a whole. -/
structure World (α : Type) where
  auditFail : AuditEvent α → Option String
  saveFail : String → PipelineResult α → Option String
  stageTs : Nat → String
  stageDur : Nat → Nat
  stageTb : Nat → String
  startTs : String
  endTs : String
  pipeDur : Nat

/-- `PipelineOrchestrator.add_stage`: builds a `PipelineStage` from the
arguments and appends it to the stage list.  The source performs no
validation whatsoever.  (Source defaults: `description=""`, `required=True`,
`retry_on_error=False`, `max_retries=3`.) -/
def add_stage (o : Orchestrator α) (name : String)
    (handler : Nat → α → Except String α) (description : String)
    (required : Bool) (retry_on_error : Bool) (max_retries : Int) :
    Orchestrator α :=
  { o with
    stages := o.stages ++
      [{ name := name, handler := handler, description := description,
         required := required, retry_on_error := retry_on_error,
         max_retries := max_retries }] }

/-- `if self.audit_logger: self.audit_logger.log(ev)`: emits nothing when no
audit logger is configured; otherwise emits the event, propagating a raised
exception of the logger. -/
def emitAudit (o : Orchestrator α) (w : World α) (ev : AuditEvent α) :
    Except String (List (Effect α)) :=
  if o.has_audit then
    match w.auditFail ev with
    | some msg => Except.error msg
    | none => Except.ok [Effect.audit ev]
  else Except.ok []

/-- `max_attempts = stage.max_retries + 1 if stage.retry_on_error else 1`,
as the number of loop iterations of `while attempts < max_attempts`
(0 when the Python value is negative or zero). -/
def maxAttemptsN (stage : PipelineStage α) : Nat :=
  (if stage.retry_on_error then stage.max_retries + 1 else 1).toNat

/-- The retry loop of `_execute_stage`.  `attempts` is the current value of
the attempt counter, `fuel` the number of remaining allowed iterations
(`max_attempts - attempts`).  Returns `none` when the loop body never runs
(so the handler is never invoked), otherwise the outcome of the last handler
invocation together with the final attempt counter (which counts exactly the
handler invocations performed). -/
def attemptLoop (handler : Nat → α → Except String α) (input : α)
    (attempts : Nat) : Nat → Option (Except String α × Nat)
  | 0 => none
  | fuel + 1 =>
    match handler (attempts + 1) input with
    | Except.ok out => some (Except.ok out, attempts + 1)
    | Except.error e =>
      match attemptLoop handler input (attempts + 1) fuel with
      | none => some (Except.error e, attempts + 1)
      | some r => some r

/-- `PipelineOrchestrator._execute_stage`: runs the retry loop, builds the
`StageResult` and emits the per-stage audit event (once, after the loop
concludes).  The `none` branch is the source's
`# Should not reach here` fallback, with the dataclass defaults
`duration_ms=0`, `timestamp=""` and no audit event. -/
def executeStage (o : Orchestrator α) (w : World α) (idx : Nat)
    (stage : PipelineStage α) (input : α) :
    Except String (StageResult α × List (Effect α)) :=
  let timestamp := w.stageTs idx
  match attemptLoop stage.handler input 0 (maxAttemptsN stage) with
  | some (Except.ok out, attempts) =>
    let duration := w.stageDur idx
    match emitAudit o w
      { action := "stage_execute", actor := o.name, object_type := "stage",
        object_id := stage.name, result := "ok",
        details := [("attempts", DValue.nat attempts),
                    ("duration_ms", DValue.nat duration)] } with
    | Except.error msg => Except.error msg
    | Except.ok tr =>
      Except.ok
        ({ stage_name := stage.name, status := "ok", output := some out,
           error := none, duration_ms := duration, timestamp := timestamp },
         tr)
  | some (Except.error e, attempts) =>
    let duration := w.stageDur idx
    match emitAudit o w
      { action := "stage_execute", actor := o.name, object_type := "stage",
        object_id := stage.name, result := "error",
        details := [("error", DValue.str e),
                    ("attempts", DValue.nat attempts),
                    ("duration_ms", DValue.nat duration),
                    ("traceback", DValue.str (w.stageTb idx))] } with
    | Except.error msg => Except.error msg
    | Except.ok tr =>
      Except.ok
        ({ stage_name := stage.name, status := "error", output := none,
           error := some e, duration_ms := duration, timestamp := timestamp },
         tr)
  | none =>
    Except.ok
      ({ stage_name := stage.name, status := "error", output := none,
         error := some "Unknown error", duration_ms := 0, timestamp := "" },
       [])

/-- The stage loop of `execute`: runs the stages in order starting at index
`idx` over the running data value, appending each `StageResult`, breaking
after a failed required stage, and updating `current_data` with the stage
output only when the stage did not fail.  (On the non-error branch the
source assigns `current_data = result.output`; there `output` is always
`some`, so the `getD` default is never used.) -/
def runStages (o : Orchestrator α) (w : World α) :
    List (PipelineStage α) → Nat → α →
    Except String (List (StageResult α) × α × List (Effect α))
  | [], _, data => Except.ok ([], data, [])
  | stage :: rest, idx, data =>
    match executeStage o w idx stage data with
    | Except.error msg => Except.error msg
    | Except.ok (res, tr1) =>
      if res.status = "error" then
        if stage.required then
          Except.ok ([res], data, tr1)
        else
          match runStages o w rest (idx + 1) data with
          | Except.error msg => Except.error msg
          | Except.ok (rs, d, tr2) => Except.ok (res :: rs, d, tr1 ++ tr2)
      else
        match runStages o w rest (idx + 1) (res.output.getD data) with
        | Except.error msg => Except.error msg
        | Except.ok (rs, d, tr2) => Except.ok (res :: rs, d, tr1 ++ tr2)

/-- The overall status computation of `execute` (`has_errors`,
`failed_required`, then the three-way `if`). -/
def overallStatus (o : Orchestrator α) (results : List (StageResult α)) :
    String :=
  let has_errors := results.any fun r => r.status == "error"
  let failed_required :=
    (results.zip o.stages).any fun p => p.1.status == "error" && p.2.required
  if failed_required then "error"
  else if has_errors then "partial"
  else "ok"

/-- The `metadata` block of the pipeline result. -/
def mkMetadata (o : Orchestrator α) (w : World α)
    (results : List (StageResult α)) : Metadata :=
  { start_time := w.startTs, end_time := w.endTs, duration_ms := w.pipeDur,
    total_stages := o.stages.length,
    successful_stages := (results.filter fun r => r.status == "ok").length,
    failed_stages := (results.filter fun r => r.status == "error").length }

/-- The assembled `pipeline_result` dictionary. -/
def mkResult (o : Orchestrator α) (w : World α)
    (results : List (StageResult α)) (current : α) : PipelineResult α :=
  { pipeline := o.name, status := overallStatus o results, mode := o.mode,
    output := current, stages := results, metadata := mkMetadata o w results }

/-- The `pipeline_start` audit event. -/
def startEvent (o : Orchestrator α) : AuditEvent α :=
  { action := "pipeline_start", actor := o.name, object_type := "pipeline",
    object_id := o.name, result := "ok",
    details := [("stage_count", DValue.nat o.stages.length)] }

/-- The `pipeline_complete` audit event. -/
def completeEvent (o : Orchestrator α) (w : World α)
    (results : List (StageResult α)) : AuditEvent α :=
  { action := "pipeline_complete", actor := o.name,
    object_type := "pipeline", object_id := o.name,
    result := overallStatus o results,
    details := metaPairs α (mkMetadata o w results) }

/-- `PipelineOrchestrator.execute`: emits `pipeline_start`, runs the stage
loop, computes the overall status and metadata, assembles the result, saves
it via `_save_result`, emits `pipeline_complete` and returns the result.
Handler failures are captured inside `executeStage`; an exception of the
audit logger or of the artifact save propagates as `Except.error`. -/
def execute (o : Orchestrator α) (w : World α) (initial_data : α) :
    Except String (PipelineResult α × List (Effect α)) :=
  match emitAudit o w (startEvent o) with
  | Except.error msg => Except.error msg
  | Except.ok tr0 =>
    match runStages o w o.stages 0 initial_data with
    | Except.error msg => Except.error msg
    | Except.ok (results, current, trs) =>
      let pr := mkResult o w results current
      match w.saveFail o.name pr with
      | some msg => Except.error msg
      | none =>
        match emitAudit o w (completeEvent o w results) with
        | Except.error msg => Except.error msg
        | Except.ok tr2 =>
          Except.ok (pr, tr0 ++ trs ++ [Effect.save o.name pr] ++ tr2)

/-- Spec-side description of data threading (§3 of the spec): a failed stage
contributes nothing, a succeeded stage replaces the running value with its
output. -/
def threadData (init : α) (results : List (StageResult α)) : α :=
  results.foldl
    (fun d r => if r.status = "error" then d else r.output.getD d) init

/-! ### Basic lemmas about the embedding -/

theorem auditEvents_append (l1 l2 : List (Effect α)) :
    auditEvents (l1 ++ l2) = auditEvents l1 ++ auditEvents l2 := by
  induction l1 with
  | nil => rfl
  | cons e tl ih => cases e <;> simp [auditEvents, ih]

theorem saveCalls_append (l1 l2 : List (Effect α)) :
    saveCalls (l1 ++ l2) = saveCalls l1 ++ saveCalls l2 := by
  induction l1 with
  | nil => rfl
  | cons e tl ih => cases e <;> simp [saveCalls, ih]

theorem emitAudit_inv (o : Orchestrator α) (w : World α) (ev : AuditEvent α)
    (l : List (Effect α)) (h : emitAudit o w ev = Except.ok l) :
    (o.has_audit = true ∧ l = [Effect.audit ev]) ∨
      (o.has_audit = false ∧ l = []) := by
  unfold emitAudit at h
  by_cases ha : o.has_audit
  · rw [if_pos ha] at h
    cases hf : w.auditFail ev <;> rw [hf] at h
    · exact Or.inl ⟨ha, by injection h with h2; exact h2.symm⟩
    · exact absurd h (by simp)
  · rw [if_neg ha] at h
    exact Or.inr ⟨by simpa using ha, by injection h with h2; exact h2.symm⟩

theorem emitAudit_total (o : Orchestrator α) (w : World α)
    (haud : ∀ ev, w.auditFail ev = none) (ev : AuditEvent α) :
    ∃ l, emitAudit o w ev = Except.ok l := by
  unfold emitAudit
  by_cases ha : o.has_audit
  · rw [if_pos ha, haud ev]
    exact ⟨_, rfl⟩
  · rw [if_neg ha]
    exact ⟨_, rfl⟩

/-- Full characterisation of the retry loop when it runs at all: the loop
performs `k` handler invocations for some `k` with
`attempts < k ≤ attempts + fuel`, every invocation before the `k`-th fails,
and the outcome is either the first success (at invocation `k`) or, when
every allowed invocation fails, the last failure (so `k = attempts + fuel`). -/
theorem attemptLoop_spec (handler : Nat → α → Except String α) (input : α) :
    ∀ (fuel attempts : Nat), 0 < fuel →
    ∃ r k, attemptLoop handler input attempts fuel = some (r, k) ∧
      attempts < k ∧ k ≤ attempts + fuel ∧
      (∀ j, attempts < j → j < k → ∃ e, handler j input = Except.error e) ∧
      ((∃ out, r = Except.ok out ∧ handler k input = Except.ok out) ∨
       (∃ e, r = Except.error e ∧ handler k input = Except.error e ∧
          k = attempts + fuel)) := by
  intro fuel
  induction fuel with
  | zero => intro a h; omega
  | succ n ih =>
    intro a _
    cases hh : handler (a + 1) input with
    | ok out =>
      refine ⟨Except.ok out, a + 1, ?_, by omega, by omega, ?_, ?_⟩
      · unfold attemptLoop
        rw [hh]
      · intro j h1 h2; omega
      · exact Or.inl ⟨out, rfl, hh⟩
    | error e =>
      rcases Nat.eq_zero_or_pos n with hn | hn
      · subst hn
        refine ⟨Except.error e, a + 1, ?_, by omega, by omega, ?_, ?_⟩
        · unfold attemptLoop
          rw [hh]
          rfl
        · intro j h1 h2; omega
        · exact Or.inr ⟨e, rfl, hh, by omega⟩
      · rcases ih (a + 1) hn with ⟨r, k, hloop, hk1, hk2, hfail, hout⟩
        refine ⟨r, k, ?_, by omega, by omega, ?_, ?_⟩
        · unfold attemptLoop
          rw [hh, hloop]
        · intro j h1 h2
          rcases Nat.lt_or_ge (a + 1) j with hj | hj
          · exact hfail j hj h2
          · have : j = a + 1 := by omega
            exact ⟨e, this ▸ hh⟩
        · rcases hout with h | ⟨e2, he1, he2, he3⟩
          · exact Or.inl h
          · exact Or.inr ⟨e2, he1, he2, by omega⟩

/-- When the handler always succeeds and the loop runs, the first invocation
succeeds and the loop stops there. -/
theorem attemptLoop_allOk (handler : Nat → α → Except String α) (input : α)
    (hok : ∀ k d, ∃ out, handler k d = Except.ok out)
    (fuel attempts : Nat) (hf : 0 < fuel) :
    ∃ out, attemptLoop handler input attempts fuel =
      some (Except.ok out, attempts + 1) := by
  rcases fuel with _ | n
  · omega
  · rcases hok (attempts + 1) input with ⟨out, hout⟩
    refine ⟨out, ?_⟩
    unfold attemptLoop
    rw [hout]

/-- Structural facts about any normally returned stage result: the recorded
stage name, the status alphabet, that a failed stage carries no output and a
succeeded one carries some, and the shape of the emitted effects (no save
call, at most one audit event, always of kind `stage_execute`). -/
theorem executeStage_inv (o : Orchestrator α) (w : World α) (idx : Nat)
    (stage : PipelineStage α) (input : α) (res : StageResult α)
    (evs : List (Effect α))
    (h : executeStage o w idx stage input = Except.ok (res, evs)) :
    res.stage_name = stage.name ∧
    (res.status = "ok" ∨ res.status = "error") ∧
    (res.status = "error" → res.output = none) ∧
    (res.status = "ok" → ∃ out, res.output = some out) ∧
    saveCalls evs = [] ∧
    (evs = [] ∨ ∃ ev, evs = [Effect.audit ev] ∧ ev.action = "stage_execute") := by
  unfold executeStage at h
  rcases hloop : attemptLoop stage.handler input 0 (maxAttemptsN stage) with
    _ | ⟨r, attempts⟩
  · rw [hloop] at h
    simp only [Except.ok.injEq, Prod.mk.injEq] at h
    rcases h with ⟨h1, h2⟩
    subst h1; subst h2
    exact ⟨rfl, Or.inr rfl, fun _ => rfl, by simp, rfl, Or.inl rfl⟩
  · rw [hloop] at h
    cases r with
    | ok out =>
      simp only at h
      rcases hem : emitAudit o w
        { action := "stage_execute", actor := o.name, object_type := "stage",
          object_id := stage.name, result := "ok",
          details := [("attempts", DValue.nat attempts),
                      ("duration_ms", DValue.nat (w.stageDur idx))] } with
        msg | l
      · rw [hem] at h; exact absurd h (by simp)
      · rw [hem] at h
        simp only [Except.ok.injEq, Prod.mk.injEq] at h
        rcases h with ⟨h1, h2⟩
        subst h1; subst h2
        refine ⟨rfl, Or.inl rfl, by simp, fun _ => ⟨out, rfl⟩, ?_, ?_⟩
        · rcases emitAudit_inv _ _ _ _ hem with ⟨_, hl⟩ | ⟨_, hl⟩ <;>
            simp [hl, saveCalls]
        · rcases emitAudit_inv _ _ _ _ hem with ⟨_, hl⟩ | ⟨_, hl⟩
          · exact Or.inr ⟨_, hl, rfl⟩
          · exact Or.inl hl
    | error e =>
      simp only at h
      rcases hem : emitAudit o w
        { action := "stage_execute", actor := o.name, object_type := "stage",
          object_id := stage.name, result := "error",
          details := [("error", DValue.str e),
                      ("attempts", DValue.nat attempts),
                      ("duration_ms", DValue.nat (w.stageDur idx)),
                      ("traceback", DValue.str (w.stageTb idx))] } with
        msg | l
      · rw [hem] at h; exact absurd h (by simp)
      · rw [hem] at h
        simp only [Except.ok.injEq, Prod.mk.injEq] at h
        rcases h with ⟨h1, h2⟩
        subst h1; subst h2
        refine ⟨rfl, Or.inr rfl, fun _ => rfl, by simp, ?_, ?_⟩
        · rcases emitAudit_inv _ _ _ _ hem with ⟨_, hl⟩ | ⟨_, hl⟩ <;>
            simp [hl, saveCalls]
        · rcases emitAudit_inv _ _ _ _ hem with ⟨_, hl⟩ | ⟨_, hl⟩
          · exact Or.inr ⟨_, hl, rfl⟩
          · exact Or.inl hl

/-- Inversion of one iteration of the stage loop. -/
theorem runStages_cons_inv (o : Orchestrator α) (w : World α)
    (stage : PipelineStage α) (rest : List (PipelineStage α)) (idx : Nat)
    (data : α) (results : List (StageResult α)) (out : α)
    (tr : List (Effect α))
    (h : runStages o w (stage :: rest) idx data =
      Except.ok (results, out, tr)) :
    ∃ res tr1, executeStage o w idx stage data = Except.ok (res, tr1) ∧
      ((res.status = "error" ∧ stage.required = true ∧ results = [res] ∧
          out = data ∧ tr = tr1) ∨
       (res.status = "error" ∧ stage.required = false ∧
          ∃ rs d tr2,
            runStages o w rest (idx + 1) data = Except.ok (rs, d, tr2) ∧
            results = res :: rs ∧ out = d ∧ tr = tr1 ++ tr2) ∨
       (res.status ≠ "error" ∧
          ∃ rs d tr2,
            runStages o w rest (idx + 1) (res.output.getD data) =
              Except.ok (rs, d, tr2) ∧
            results = res :: rs ∧ out = d ∧ tr = tr1 ++ tr2)) := by
  unfold runStages at h
  rcases hex : executeStage o w idx stage data with msg | ⟨res, tr1⟩
  · rw [hex] at h; exact absurd h (by simp)
  · rw [hex] at h
    simp only [] at h
    refine ⟨res, tr1, rfl, ?_⟩
    by_cases hst : res.status = "error"
    · rw [if_pos hst] at h
      by_cases hreq : stage.required
      · rw [if_pos hreq] at h
        simp only [Except.ok.injEq, Prod.mk.injEq] at h
        exact Or.inl ⟨hst, hreq, h.1.symm, h.2.1.symm, h.2.2.symm⟩
      · rw [if_neg hreq] at h
        rcases hrun : runStages o w rest (idx + 1) data with msg | ⟨rs, d, tr2⟩
        · rw [hrun] at h; exact absurd h (by simp)
        · rw [hrun] at h
          simp only [Except.ok.injEq, Prod.mk.injEq] at h
          exact Or.inr (Or.inl ⟨hst, by simpa using hreq,
            rs, d, tr2, rfl, h.1.symm, h.2.1.symm, h.2.2.symm⟩)
    · rw [if_neg hst] at h
      rcases hrun : runStages o w rest (idx + 1) (res.output.getD data) with
        msg | ⟨rs, d, tr2⟩
      · rw [hrun] at h; exact absurd h (by simp)
      · rw [hrun] at h
        simp only [Except.ok.injEq, Prod.mk.injEq] at h
        exact Or.inr (Or.inr ⟨hst, rs, d, tr2, rfl, h.1.symm, h.2.1.symm, h.2.2.symm⟩)

/-- The stage loop never throws when the audit logger never throws. -/
theorem runStages_total (o : Orchestrator α) (w : World α)
    (haud : ∀ ev, w.auditFail ev = none) :
    ∀ (stages : List (PipelineStage α)) (idx : Nat) (data : α),
    ∃ results out tr,
      runStages o w stages idx data = Except.ok (results, out, tr) := by
  intro stages
  induction stages with
  | nil => exact fun idx data => ⟨[], data, [], rfl⟩
  | cons stage rest ih =>
    intro idx data
    have hex : ∃ res evs,
        executeStage o w idx stage data = Except.ok (res, evs) := by
      rcases hloop : attemptLoop stage.handler data 0 (maxAttemptsN stage) with
        _ | ⟨r, attempts⟩
      · exact ⟨_, _, by unfold executeStage; rw [hloop]⟩
      · cases r with
        | ok out =>
          rcases emitAudit_total o w haud
            { action := "stage_execute", actor := o.name,
              object_type := "stage", object_id := stage.name,
              result := "ok",
              details := [("attempts", DValue.nat attempts),
                          ("duration_ms", DValue.nat (w.stageDur idx))] } with
            ⟨l, hl⟩
          refine ⟨{ stage_name := stage.name, status := "ok",
                    output := some out, error := none,
                    duration_ms := w.stageDur idx,
                    timestamp := w.stageTs idx }, l, ?_⟩
          unfold executeStage
          rw [hloop]
          simp only []
          rw [hl]
        | error e =>
          rcases emitAudit_total o w haud
            { action := "stage_execute", actor := o.name,
              object_type := "stage", object_id := stage.name,
              result := "error",
              details := [("error", DValue.str e),
                          ("attempts", DValue.nat attempts),
                          ("duration_ms", DValue.nat (w.stageDur idx)),
                          ("traceback", DValue.str (w.stageTb idx))] } with
            ⟨l, hl⟩
          refine ⟨{ stage_name := stage.name, status := "error",
                    output := none, error := some e,
                    duration_ms := w.stageDur idx,
                    timestamp := w.stageTs idx }, l, ?_⟩
          unfold executeStage
          rw [hloop]
          simp only []
          rw [hl]
    rcases hex with ⟨res, evs, hex⟩
    unfold runStages
    rw [hex]
    simp only []
    by_cases hst : res.status = "error"
    · rw [if_pos hst]
      by_cases hreq : stage.required
      · rw [if_pos hreq]
        exact ⟨_, _, _, rfl⟩
      · rw [if_neg hreq]
        rcases ih (idx + 1) data with ⟨rs, d, tr2, hrun⟩
        rw [hrun]
        exact ⟨_, _, _, rfl⟩
    · rw [if_neg hst]
      rcases ih (idx + 1) (res.output.getD data) with ⟨rs, d, tr2, hrun⟩
      rw [hrun]
      exact ⟨_, _, _, rfl⟩

theorem threadData_cons (init : α) (r : StageResult α)
    (rs : List (StageResult α)) :
    threadData init (r :: rs) =
      threadData (if r.status = "error" then init else r.output.getD init)
        rs := rfl

/-- Structural facts about any normally completed stage loop: the result
list is a prefix-shaped record of the attempted stages (at most one entry
per registered stage, names in registration order), every recorded status is
`ok` or `error` and failed stages carry no output, the final data value is
the spec's fold over the results, the trace contains no save call, any
required failure is the last entry, and without a required failure every
stage has an entry. -/
theorem runStages_results (o : Orchestrator α) (w : World α) :
    ∀ (stages : List (PipelineStage α)) (idx : Nat) (data : α)
      (results : List (StageResult α)) (out : α) (tr : List (Effect α)),
    runStages o w stages idx data = Except.ok (results, out, tr) →
    results.length ≤ stages.length ∧
    out = threadData data results ∧
    saveCalls tr = [] ∧
    (∀ i (h1 : i < results.length) (h2 : i < stages.length),
       (results.get ⟨i, h1⟩).stage_name = (stages.get ⟨i, h2⟩).name) ∧
    (∀ r ∈ results, (r.status = "ok" ∨ r.status = "error") ∧
       (r.status = "error" → r.output = none)) ∧
    (∀ i (h1 : i < results.length) (h2 : i < stages.length),
       (results.get ⟨i, h1⟩).status = "error" →
       (stages.get ⟨i, h2⟩).required = true → i + 1 = results.length) ∧
    ((∀ i (h1 : i < results.length) (h2 : i < stages.length),
        ¬((results.get ⟨i, h1⟩).status = "error" ∧
          (stages.get ⟨i, h2⟩).required = true)) →
      results.length = stages.length) := by
  intro stages
  induction stages with
  | nil =>
    intro idx data results out tr h
    unfold runStages at h
    simp only [Except.ok.injEq, Prod.mk.injEq] at h
    rcases h with ⟨h1, h2, h3⟩
    subst h1; subst h2; subst h3
    refine ⟨by simp, rfl, rfl, ?_, ?_, ?_, ?_⟩
    · intro i h1 h2; simp at h1
    · intro r hr; simp at hr
    · intro i h1 h2; simp at h1
    · intro _; rfl
  | cons stage rest ih =>
    intro idx data results out tr h
    rcases runStages_cons_inv o w stage rest idx data results out tr h with
      ⟨res, tr1, hex, hcase⟩
    rcases executeStage_inv o w idx stage data res tr1 hex with
      ⟨hname, hstat, herrout, hokout, hsave1, _⟩
    rcases hcase with
      ⟨hst, hreq, hres, hout, htr⟩ |
      ⟨hst, hreq, rs, d, tr2, hrun, hres, hout, htr⟩ |
      ⟨hst, rs, d, tr2, hrun, hres, hout, htr⟩
    · subst hres; subst hout; subst htr
      refine ⟨by simp, by simp [threadData, hst], hsave1, ?_, ?_, ?_, ?_⟩
      · intro i h1 h2
        have hi0 : i = 0 := by simp at h1; omega
        subst hi0
        exact hname
      · intro r hr
        simp only [List.mem_singleton] at hr
        subst hr
        exact ⟨hstat, herrout⟩
      · intro i h1 h2 _ _
        have hi0 : i = 0 := by simp at h1; omega
        subst hi0
        rfl
      · intro hno
        exact absurd ⟨hst, hreq⟩ (hno 0 (by simp) (by simp))
    · subst hres; subst hout; subst htr
      rcases ih (idx + 1) data rs out tr2 hrun with
        ⟨ihlen, ihout, ihsave, ihname, ihstat, ihbrk, ihfull⟩
      refine ⟨?_, ?_, ?_, ?_, ?_, ?_, ?_⟩
      · simp only [List.length_cons]
        omega
      · rw [threadData_cons, if_pos hst]
        exact ihout
      · rw [saveCalls_append, hsave1, ihsave]
        rfl
      · intro i h1 h2
        cases i with
        | zero => exact hname
        | succ n =>
          exact ihname n (by simp only [List.length_cons] at h1; omega)
            (by simp only [List.length_cons] at h2; omega)
      · intro r hr
        rcases List.mem_cons.mp hr with hr | hr
        · subst hr; exact ⟨hstat, herrout⟩
        · exact ihstat r hr
      · intro i h1 h2 hie hir
        cases i with
        | zero =>
          exact absurd (show stage.required = true from hir) (by simp [hreq])
        | succ n =>
          have hn := ihbrk n (by simp only [List.length_cons] at h1; omega)
            (by simp only [List.length_cons] at h2; omega) hie hir
          simp only [List.length_cons]
          omega
      · intro hno
        have hlen : rs.length = rest.length := by
          refine ihfull ?_
          intro n b1 b2 hc
          exact hno (n + 1) (by simp only [List.length_cons]; omega)
            (by simp only [List.length_cons]; omega) hc
        simp only [List.length_cons]
        omega
    · subst hres; subst hout; subst htr
      rcases ih (idx + 1) (res.output.getD data) rs out tr2 hrun with
        ⟨ihlen, ihout, ihsave, ihname, ihstat, ihbrk, ihfull⟩
      refine ⟨?_, ?_, ?_, ?_, ?_, ?_, ?_⟩
      · simp only [List.length_cons]
        omega
      · rw [threadData_cons, if_neg hst]
        exact ihout
      · rw [saveCalls_append, hsave1, ihsave]
        rfl
      · intro i h1 h2
        cases i with
        | zero => exact hname
        | succ n =>
          exact ihname n (by simp only [List.length_cons] at h1; omega)
            (by simp only [List.length_cons] at h2; omega)
      · intro r hr
        rcases List.mem_cons.mp hr with hr | hr
        · subst hr; exact ⟨hstat, herrout⟩
        · exact ihstat r hr
      · intro i h1 h2 hie hir
        cases i with
        | zero =>
          exact absurd (show res.status = "error" from hie) hst
        | succ n =>
          have hn := ihbrk n (by simp only [List.length_cons] at h1; omega)
            (by simp only [List.length_cons] at h2; omega) hie hir
          simp only [List.length_cons]
          omega
      · intro hno
        have hlen : rs.length = rest.length := by
          refine ihfull ?_
          intro n b1 b2 hc
          exact hno (n + 1) (by simp only [List.length_cons]; omega)
            (by simp only [List.length_cons]; omega) hc
        simp only [List.length_cons]
        omega

/-- Inversion of a normally returned `execute` call. -/
theorem execute_inv (o : Orchestrator α) (w : World α) (x : α)
    (pr : PipelineResult α) (tr : List (Effect α))
    (h : execute o w x = Except.ok (pr, tr)) :
    ∃ results current trs tr0 tr2,
      emitAudit o w (startEvent o) = Except.ok tr0 ∧
      runStages o w o.stages 0 x = Except.ok (results, current, trs) ∧
      pr = mkResult o w results current ∧
      w.saveFail o.name pr = none ∧
      emitAudit o w (completeEvent o w results) = Except.ok tr2 ∧
      tr = tr0 ++ trs ++ [Effect.save o.name pr] ++ tr2 := by
  unfold execute at h
  rcases h0 : emitAudit o w (startEvent o) with msg | tr0
  · rw [h0] at h; exact absurd h (by simp)
  · rw [h0] at h
    rcases hrun : runStages o w o.stages 0 x with msg | ⟨results, current, trs⟩
    · rw [hrun] at h; exact absurd h (by simp)
    · rw [hrun] at h
      simp only [] at h
      rcases hsf : w.saveFail o.name (mkResult o w results current) with
        _ | msg
      · rw [hsf] at h
        rcases h2 : emitAudit o w (completeEvent o w results) with msg | tr2
        · rw [h2] at h; exact absurd h (by simp)
        · rw [h2] at h
          simp only [Except.ok.injEq, Prod.mk.injEq] at h
          rcases h with ⟨hpr, htr⟩
          subst hpr
          exact ⟨results, current, trs, tr0, tr2, rfl, rfl, rfl, hsf, h2,
            htr.symm⟩
      · rw [hsf] at h; exact absurd h (by simp)

theorem any_iff_get {A : Type} (l : List A) (p : A → Bool) :
    (l.any p = true) ↔
      ∃ i, ∃ (h1 : i < l.length), p (l.get ⟨i, h1⟩) = true := by
  rw [List.any_eq_true]
  constructor
  · rintro ⟨x, hx, hpx⟩
    rcases List.mem_iff_get.mp hx with ⟨i, hget⟩
    exact ⟨i.val, i.isLt, by rw [hget]; exact hpx⟩
  · rintro ⟨i, h1, hp⟩
    exact ⟨l.get ⟨i, h1⟩, List.get_mem l i h1, hp⟩

theorem zip_any_iff {A B : Type} (l1 : List A) (l2 : List B)
    (p : A × B → Bool) :
    ((l1.zip l2).any p = true) ↔
      ∃ i, ∃ (h1 : i < l1.length) (h2 : i < l2.length),
        p (l1.get ⟨i, h1⟩, l2.get ⟨i, h2⟩) = true := by
  rw [any_iff_get]
  constructor
  · rintro ⟨i, hi, hp⟩
    have hlen := hi
    rw [List.length_zip] at hlen
    have h1 : i < l1.length := lt_of_lt_of_le hlen (min_le_left _ _)
    have h2 : i < l2.length := lt_of_lt_of_le hlen (min_le_right _ _)
    refine ⟨i, h1, h2, ?_⟩
    have hz : (l1.zip l2).get ⟨i, hi⟩ = (l1.get ⟨i, h1⟩, l2.get ⟨i, h2⟩) := by
      simp [List.getElem_zip]
    rw [hz] at hp
    exact hp
  · rintro ⟨i, h1, h2, hp⟩
    have hi : i < (l1.zip l2).length := by
      rw [List.length_zip]; omega
    refine ⟨i, hi, ?_⟩
    have hz : (l1.zip l2).get ⟨i, hi⟩ = (l1.get ⟨i, h1⟩, l2.get ⟨i, h2⟩) := by
      simp [List.getElem_zip]
    rw [hz]
    exact hp

/-! ### Claim theorems -/

/-- C1: for every normally returned `execute` call, the overall status of
the returned pipeline result is `error` iff some attempted stage is required
and its stage result is `error`; `partial` iff no required stage failed but
some attempted optional stage failed; and `ok` iff every attempted stage
ended `ok`. -/
theorem C1_overall_status (o : Orchestrator α) (w : World α) (x : α)
    (pr : PipelineResult α) (tr : List (Effect α))
    (h : execute o w x = Except.ok (pr, tr)) :
    (pr.status = "error" ↔
       ∃ i, ∃ (h1 : i < pr.stages.length) (h2 : i < o.stages.length),
         (pr.stages.get ⟨i, h1⟩).status = "error" ∧
         (o.stages.get ⟨i, h2⟩).required = true) ∧
    (pr.status = "partial" ↔
       (¬ ∃ i, ∃ (h1 : i < pr.stages.length) (h2 : i < o.stages.length),
           (pr.stages.get ⟨i, h1⟩).status = "error" ∧
           (o.stages.get ⟨i, h2⟩).required = true) ∧
       ∃ i, ∃ (h1 : i < pr.stages.length) (h2 : i < o.stages.length),
         (pr.stages.get ⟨i, h1⟩).status = "error" ∧
         (o.stages.get ⟨i, h2⟩).required = false) ∧
    (pr.status = "ok" ↔
       ∀ i (h1 : i < pr.stages.length),
         (pr.stages.get ⟨i, h1⟩).status = "ok") := by
  rcases execute_inv o w x pr tr h with
    ⟨results, current, trs, tr0, tr2, _, hrun, hpr, _, _, _⟩
  rcases runStages_results o w o.stages 0 x results current trs hrun with
    ⟨hlen, _, _, _, hstat, _, _⟩
  subst hpr
  simp only [mkResult]
  have hFR := zip_any_iff results o.stages
    (fun p => p.1.status == "error" && p.2.required)
  have hHE := any_iff_get results (fun r => r.status == "error")
  simp only [Bool.and_eq_true, beq_iff_eq] at hFR hHE
  unfold overallStatus
  simp only []
  by_cases hfr :
    ((results.zip o.stages).any fun p =>
      p.1.status == "error" && p.2.required) = true
  · rw [if_pos hfr]
    have hA := hFR.mp hfr
    refine ⟨iff_of_true rfl hA, ?_, ?_⟩
    · exact iff_of_false (by decide) (fun hc => hc.1 hA)
    · refine iff_of_false (by decide) ?_
      rcases hA with ⟨i, h1, h2, hie, _⟩
      intro hall
      rw [hall i h1] at hie
      exact absurd hie (by decide)
  · rw [if_neg hfr]
    have hnA : ¬ ∃ i, ∃ (h1 : i < results.length) (h2 : i < o.stages.length),
        (results.get ⟨i, h1⟩).status = "error" ∧
        (o.stages.get ⟨i, h2⟩).required = true :=
      fun hA => hfr (hFR.mpr hA)
    by_cases hhe : (results.any fun r => r.status == "error") = true
    · rw [if_pos hhe]
      rcases hHE.mp hhe with ⟨i, h1, hie⟩
      have h2 : i < o.stages.length := lt_of_lt_of_le h1 hlen
      have hreqf : (o.stages.get ⟨i, h2⟩).required = false := by
        by_cases hr : (o.stages.get ⟨i, h2⟩).required = true
        · exact absurd ⟨i, h1, h2, hie, hr⟩ hnA
        · simpa using hr
      refine ⟨iff_of_false (by decide) (fun hA => hnA hA), ?_, ?_⟩
      · exact iff_of_true rfl ⟨hnA, i, h1, h2, hie, hreqf⟩
      · refine iff_of_false (by decide) ?_
        intro hall
        rw [hall i h1] at hie
        exact absurd hie (by decide)
    · rw [if_neg hhe]
      have hnB : ∀ i (h1 : i < results.length),
          (results.get ⟨i, h1⟩).status ≠ "error" := by
        intro i h1 hie
        exact hhe (hHE.mpr ⟨i, h1, hie⟩)
      refine ⟨iff_of_false (by decide) (fun hA => hnA hA), ?_, ?_⟩
      · refine iff_of_false (by decide) ?_
        rintro ⟨_, i, h1, h2, hie, _⟩
        exact hnB i h1 hie
      · refine iff_of_true rfl ?_
        intro i h1
        rcases (hstat (results.get ⟨i, h1⟩) (List.get_mem results i h1)).1 with
          hok | herr
        · exact hok
        · exact absurd herr (hnB i h1)

/-! ### Concrete scenario used by the witnesses: the spec's
"optional failure yields partial" pipeline (optional failing `s1`,
required succeeding `s2`) over initial data `5`. -/

/-- A world in which neither the audit logger nor the artifact save throws
and every clock reading is trivial. -/
def pureWorld : World Nat :=
  { auditFail := fun _ => none, saveFail := fun _ _ => none,
    stageTs := fun _ => "", stageDur := fun _ => 0, stageTb := fun _ => "",
    startTs := "", endTs := "", pipeDur := 0 }

/-- A handler that always raises. -/
def sFailHandler : Nat → Nat → Except String Nat :=
  fun _ _ => Except.error "Stage 1 failed"

/-- A handler that always succeeds, doubling the data value. -/
def sOkHandler : Nat → Nat → Except String Nat :=
  fun _ d => Except.ok (d * 2)

def demoStage1 : PipelineStage Nat :=
  { name := "s1", handler := sFailHandler, description := "",
    required := false, retry_on_error := false, max_retries := 3 }

def demoStage2 : PipelineStage Nat :=
  { name := "s2", handler := sOkHandler, description := "",
    required := true, retry_on_error := false, max_retries := 3 }

def demoOrch : Orchestrator Nat :=
  { name := "demo", mode := "TEST", has_audit := false,
    stages := [demoStage1, demoStage2] }

def demoRes1 : StageResult Nat :=
  { stage_name := "s1", status := "error", output := none,
    error := some "Stage 1 failed", duration_ms := 0, timestamp := "" }

def demoRes2 : StageResult Nat :=
  { stage_name := "s2", status := "ok", output := some 10,
    error := none, duration_ms := 0, timestamp := "" }

def demoPR : PipelineResult Nat :=
  { pipeline := "demo", status := "partial", mode := "TEST", output := 10,
    stages := [demoRes1, demoRes2],
    metadata := { start_time := "", end_time := "", duration_ms := 0,
                  total_stages := 2, successful_stages := 1,
                  failed_stages := 1 } }

def demoTrace : List (Effect Nat) := [Effect.save "demo" demoPR]

theorem demo_exec : execute demoOrch pureWorld 5 =
    Except.ok (demoPR, demoTrace) := by rfl

theorem C1_overall_status_witness :
    (demoPR.status = "error" ↔
       ∃ i, ∃ (h1 : i < demoPR.stages.length)
         (h2 : i < demoOrch.stages.length),
         (demoPR.stages.get ⟨i, h1⟩).status = "error" ∧
         (demoOrch.stages.get ⟨i, h2⟩).required = true) ∧
    (demoPR.status = "partial" ↔
       (¬ ∃ i, ∃ (h1 : i < demoPR.stages.length)
           (h2 : i < demoOrch.stages.length),
           (demoPR.stages.get ⟨i, h1⟩).status = "error" ∧
           (demoOrch.stages.get ⟨i, h2⟩).required = true) ∧
       ∃ i, ∃ (h1 : i < demoPR.stages.length)
         (h2 : i < demoOrch.stages.length),
         (demoPR.stages.get ⟨i, h1⟩).status = "error" ∧
         (demoOrch.stages.get ⟨i, h2⟩).required = false) ∧
    (demoPR.status = "ok" ↔
       ∀ i (h1 : i < demoPR.stages.length),
         (demoPR.stages.get ⟨i, h1⟩).status = "ok") :=
  C1_overall_status demoOrch pureWorld 5 demoPR demoTrace demo_exec

/-- C5: for every normally returned `execute` call, the stage-result list
has one entry per attempted stage in registration order (names match
positionally), its length never exceeds the number of registered stages,
any required failure is exactly the last entry (everything after it is never
attempted), and without a required failure every registered stage has an
entry. -/
theorem C5_stage_results_shape (o : Orchestrator α) (w : World α) (x : α)
    (pr : PipelineResult α) (tr : List (Effect α))
    (h : execute o w x = Except.ok (pr, tr)) :
    pr.stages.length ≤ o.stages.length ∧
    (∀ i (h1 : i < pr.stages.length) (h2 : i < o.stages.length),
       (pr.stages.get ⟨i, h1⟩).stage_name = (o.stages.get ⟨i, h2⟩).name) ∧
    (∀ i (h1 : i < pr.stages.length) (h2 : i < o.stages.length),
       (pr.stages.get ⟨i, h1⟩).status = "error" →
       (o.stages.get ⟨i, h2⟩).required = true → i + 1 = pr.stages.length) ∧
    ((∀ i (h1 : i < pr.stages.length) (h2 : i < o.stages.length),
        ¬((pr.stages.get ⟨i, h1⟩).status = "error" ∧
          (o.stages.get ⟨i, h2⟩).required = true)) →
      pr.stages.length = o.stages.length) := by
  rcases execute_inv o w x pr tr h with
    ⟨results, current, trs, tr0, tr2, _, hrun, hpr, _, _, _⟩
  rcases runStages_results o w o.stages 0 x results current trs hrun with
    ⟨hlen, _, _, hname, _, hbrk, hfull⟩
  subst hpr
  simp only [mkResult]
  exact ⟨hlen, hname, hbrk, hfull⟩

theorem C5_stage_results_shape_witness :
    demoPR.stages.length ≤ demoOrch.stages.length ∧
    (∀ i (h1 : i < demoPR.stages.length) (h2 : i < demoOrch.stages.length),
       (demoPR.stages.get ⟨i, h1⟩).stage_name =
         (demoOrch.stages.get ⟨i, h2⟩).name) ∧
    (∀ i (h1 : i < demoPR.stages.length) (h2 : i < demoOrch.stages.length),
       (demoPR.stages.get ⟨i, h1⟩).status = "error" →
       (demoOrch.stages.get ⟨i, h2⟩).required = true →
       i + 1 = demoPR.stages.length) ∧
    ((∀ i (h1 : i < demoPR.stages.length)
        (h2 : i < demoOrch.stages.length),
        ¬((demoPR.stages.get ⟨i, h1⟩).status = "error" ∧
          (demoOrch.stages.get ⟨i, h2⟩).required = true)) →
      demoPR.stages.length = demoOrch.stages.length) :=
  C5_stage_results_shape demoOrch pureWorld 5 demoPR demoTrace demo_exec

/-- C6: for every normally returned `execute` call, the final output equals
the fold of the stage results over the initial data in which a failed stage
leaves the running value unchanged and a succeeded stage replaces it with
its output; moreover a failed stage never carries an output.  In
particular, the data value seen by the stage after a failing stage (and the
final output when the last attempted stage fails) is the value from before
the failing stage. -/
theorem C6_data_threading (o : Orchestrator α) (w : World α) (x : α)
    (pr : PipelineResult α) (tr : List (Effect α))
    (h : execute o w x = Except.ok (pr, tr)) :
    pr.output = threadData x pr.stages ∧
    ∀ r ∈ pr.stages, r.status = "error" → r.output = none := by
  rcases execute_inv o w x pr tr h with
    ⟨results, current, trs, tr0, tr2, _, hrun, hpr, _, _, _⟩
  rcases runStages_results o w o.stages 0 x results current trs hrun with
    ⟨_, hout, _, _, hstat, _, _⟩
  subst hpr
  simp only [mkResult]
  exact ⟨hout, fun r hr he => (hstat r hr).2 he⟩

theorem C6_data_threading_witness :
    (demoPR.output = threadData 5 demoPR.stages ∧
      ∀ r ∈ demoPR.stages, r.status = "error" → r.output = none) ∧
    demoPR.output = ((sOkHandler 1 5).toOption).getD 0 :=
  ⟨C6_data_threading demoOrch pureWorld 5 demoPR demoTrace demo_exec, rfl⟩

/-- C7: `execute` never throws when the audit logger and the artifact save
do not throw: every stage handler failure is captured into the
corresponding stage result and `execute` returns a pipeline result
normally, whatever the handlers do. -/
theorem C7_execute_total (o : Orchestrator α) (w : World α) (x : α)
    (haud : ∀ ev, w.auditFail ev = none)
    (hsave : ∀ n r, w.saveFail n r = none) :
    ∃ pr tr, execute o w x = Except.ok (pr, tr) := by
  rcases emitAudit_total o w haud (startEvent o) with ⟨tr0, h0⟩
  rcases runStages_total o w haud o.stages 0 x with
    ⟨results, current, trs, hrun⟩
  rcases emitAudit_total o w haud (completeEvent o w results) with ⟨tr2, h2⟩
  refine ⟨mkResult o w results current,
    tr0 ++ trs ++ [Effect.save o.name (mkResult o w results current)] ++ tr2,
    ?_⟩
  unfold execute
  rw [h0, hrun]
  simp only []
  rw [hsave o.name (mkResult o w results current), h2]

theorem C7_execute_total_witness :
    ∃ pr tr, execute demoOrch pureWorld 5 = Except.ok (pr, tr) :=
  C7_execute_total demoOrch pureWorld 5 (fun _ => rfl) (fun _ _ => rfl)

/-- C9: for every normally returned `execute` call, the save capability is
invoked exactly once, with the pipeline name and the fully assembled
pipeline result that `execute` returns (status, output, stage results and
metadata all final), before `execute` returns. -/
theorem C9_save_once (o : Orchestrator α) (w : World α) (x : α)
    (pr : PipelineResult α) (tr : List (Effect α))
    (h : execute o w x = Except.ok (pr, tr)) :
    saveCalls tr = [(o.name, pr)] := by
  rcases execute_inv o w x pr tr h with
    ⟨results, current, trs, tr0, tr2, h0, hrun, hpr, _, h2, htr⟩
  rcases runStages_results o w o.stages 0 x results current trs hrun with
    ⟨_, _, hsaves, _, _, _, _⟩
  have hs0 : saveCalls tr0 = [] := by
    rcases emitAudit_inv _ _ _ _ h0 with ⟨_, hl⟩ | ⟨_, hl⟩ <;>
      simp [hl, saveCalls]
  have hs2 : saveCalls tr2 = [] := by
    rcases emitAudit_inv _ _ _ _ h2 with ⟨_, hl⟩ | ⟨_, hl⟩ <;>
      simp [hl, saveCalls]
  subst htr
  simp [saveCalls_append, hs0, hs2, hsaves, saveCalls]

theorem C9_save_once_witness :
    saveCalls demoTrace = [("demo", demoPR)] :=
  C9_save_once demoOrch pureWorld 5 demoPR demoTrace demo_exec

theorem emitAudit_pure (o : Orchestrator α) (w : World α)
    (haud : ∀ ev, w.auditFail ev = none) (ev : AuditEvent α) :
    emitAudit o w ev =
      Except.ok (if o.has_audit then [Effect.audit ev] else []) := by
  unfold emitAudit
  by_cases ha : o.has_audit
  · rw [if_pos ha, haud ev, if_pos ha]
  · rw [if_neg ha, if_neg ha]

/-- C4: for a stage whose `max_retries` is non-negative, the executor
invokes the handler at most `max_retries + 1` times when the retry flag is
enabled and exactly once otherwise, passing the same unmodified input to
every attempt (the loop calls `handler j input` with the unchanged `input`);
it stops at the first success, recording status `ok` with the handler's
return value as output, and when every allowed attempt fails it stops with
status `error` and the last failure message, after exactly the maximal
number of invocations.  The returned `attempts` counter counts exactly the
handler invocations performed. -/
theorem C4_retry_policy (o : Orchestrator α) (w : World α) (idx : Nat)
    (stage : PipelineStage α) (input : α)
    (hmr : 0 ≤ stage.max_retries)
    (haud : ∀ ev, w.auditFail ev = none) :
    ∃ r attempts,
      attemptLoop stage.handler input 0 (maxAttemptsN stage) =
        some (r, attempts) ∧
      1 ≤ attempts ∧
      (stage.retry_on_error = true →
        (attempts : Int) ≤ stage.max_retries + 1) ∧
      (stage.retry_on_error = false → attempts = 1) ∧
      (∀ j, 1 ≤ j → j < attempts →
        ∃ e, stage.handler j input = Except.error e) ∧
      ((∃ out, r = Except.ok out ∧
          stage.handler attempts input = Except.ok out ∧
          ∃ res evs,
            executeStage o w idx stage input = Except.ok (res, evs) ∧
            res.status = "ok" ∧ res.output = some out) ∨
       (∃ e, r = Except.error e ∧
          stage.handler attempts input = Except.error e ∧
          (attempts : Int) =
            (if stage.retry_on_error then stage.max_retries + 1 else 1) ∧
          ∃ res evs,
            executeStage o w idx stage input = Except.ok (res, evs) ∧
            res.status = "error" ∧ res.error = some e)) := by
  have hfuel : 0 < maxAttemptsN stage := by
    unfold maxAttemptsN
    split <;> omega
  rcases attemptLoop_spec stage.handler input (maxAttemptsN stage) 0 hfuel
    with ⟨r, k, hloop, hk1, hk2, hfail, hout⟩
  rw [Nat.zero_add] at hk2
  refine ⟨r, k, hloop, hk1, ?_, ?_, ?_, ?_⟩
  · intro hro
    have hf : maxAttemptsN stage = (stage.max_retries + 1).toNat := by
      simp [maxAttemptsN, hro]
    omega
  · intro hro
    have hf : maxAttemptsN stage = 1 := by
      simp [maxAttemptsN, hro]
    omega
  · intro j hj1 hj2
    exact hfail j hj1 hj2
  · rcases hout with ⟨out, hr, hk⟩ | ⟨e, hr, hke, hkmax⟩
    · subst hr
      refine Or.inl ⟨out, rfl, hk, ?_⟩
      rcases emitAudit_total o w haud
        { action := "stage_execute", actor := o.name,
          object_type := "stage", object_id := stage.name, result := "ok",
          details := [("attempts", DValue.nat k),
                      ("duration_ms", DValue.nat (w.stageDur idx))] } with
        ⟨l, hl⟩
      refine ⟨{ stage_name := stage.name, status := "ok",
                output := some out, error := none,
                duration_ms := w.stageDur idx,
                timestamp := w.stageTs idx }, l, ?_, rfl, rfl⟩
      unfold executeStage
      rw [hloop]
      simp only []
      rw [hl]
    · subst hr
      have hcast : (k : Int) =
          (if stage.retry_on_error then stage.max_retries + 1 else 1) := by
        by_cases hro : stage.retry_on_error = true
        · rw [if_pos hro]
          have hf : maxAttemptsN stage = (stage.max_retries + 1).toNat := by
            simp [maxAttemptsN, hro]
          omega
        · rw [if_neg hro]
          rw [Bool.not_eq_true] at hro
          have hf : maxAttemptsN stage = 1 := by
            simp [maxAttemptsN, hro]
          omega
      refine Or.inr ⟨e, rfl, hke, hcast, ?_⟩
      rcases emitAudit_total o w haud
        { action := "stage_execute", actor := o.name,
          object_type := "stage", object_id := stage.name,
          result := "error",
          details := [("error", DValue.str e),
                      ("attempts", DValue.nat k),
                      ("duration_ms", DValue.nat (w.stageDur idx)),
                      ("traceback", DValue.str (w.stageTb idx))] } with
        ⟨l, hl⟩
      refine ⟨{ stage_name := stage.name, status := "error",
                output := none, error := some e,
                duration_ms := w.stageDur idx,
                timestamp := w.stageTs idx }, l, ?_, rfl, rfl⟩
      unfold executeStage
      rw [hloop]
      simp only []
      rw [hl]

/-- The retry-exhaustion stage of the spec scenarios: the handler always
raises, retry is enabled with `max_retries = 2`. -/
def c4Stage : PipelineStage Nat :=
  { name := "always", handler := fun _ _ => Except.error "boom",
    description := "", required := true, retry_on_error := true,
    max_retries := 2 }

def c4Orch : Orchestrator Nat :=
  { name := "p4", mode := "TEST", has_audit := false, stages := [c4Stage] }

theorem C4_retry_policy_witness :
    ∃ r attempts,
      attemptLoop c4Stage.handler 7 0 (maxAttemptsN c4Stage) =
        some (r, attempts) ∧
      1 ≤ attempts ∧
      (c4Stage.retry_on_error = true →
        (attempts : Int) ≤ c4Stage.max_retries + 1) ∧
      (c4Stage.retry_on_error = false → attempts = 1) ∧
      (∀ j, 1 ≤ j → j < attempts →
        ∃ e, c4Stage.handler j 7 = Except.error e) ∧
      ((∃ out, r = Except.ok out ∧
          c4Stage.handler attempts 7 = Except.ok out ∧
          ∃ res evs,
            executeStage c4Orch pureWorld 0 c4Stage 7 =
              Except.ok (res, evs) ∧
            res.status = "ok" ∧ res.output = some out) ∨
       (∃ e, r = Except.error e ∧
          c4Stage.handler attempts 7 = Except.error e ∧
          (attempts : Int) =
            (if c4Stage.retry_on_error then c4Stage.max_retries + 1
             else 1) ∧
          ∃ res evs,
            executeStage c4Orch pureWorld 0 c4Stage 7 =
              Except.ok (res, evs) ∧
            res.status = "error" ∧ res.error = some e)) :=
  C4_retry_policy c4Orch pureWorld 0 c4Stage 7 (by decide) (fun _ => rfl)

/-- C10: a stage registered with the retry flag enabled and a negative
`max_retries` (which `add_stage` accepts without error) computes a
non-positive maximum attempt count, so the retry loop body never runs: the
handler is invoked zero times (the outcome does not depend on the handler at
all), no audit event is emitted, and the fallback stage result with status
`error`, message `Unknown error`, no output, duration 0 and empty timestamp
is returned. -/
theorem C10_negative_retries (o : Orchestrator α) (w : World α) (idx : Nat)
    (stage : PipelineStage α) (input : α)
    (hro : stage.retry_on_error = true) (hneg : stage.max_retries < 0) :
    maxAttemptsN stage = 0 ∧
    attemptLoop stage.handler input 0 (maxAttemptsN stage) = none ∧
    executeStage o w idx stage input =
      Except.ok
        ({ stage_name := stage.name, status := "error", output := none,
           error := some "Unknown error", duration_ms := 0,
           timestamp := "" }, []) ∧
    (∀ g : Nat → α → Except String α,
      executeStage o w idx { stage with handler := g } input =
        executeStage o w idx stage input) := by
  have h0 : maxAttemptsN stage = 0 := by
    unfold maxAttemptsN
    rw [if_pos hro]
    omega
  have hexe : executeStage o w idx stage input =
      Except.ok
        ({ stage_name := stage.name, status := "error", output := none,
           error := some "Unknown error", duration_ms := 0,
           timestamp := "" }, []) := by
    unfold executeStage
    rw [h0]
    rfl
  have h0g : ∀ g : Nat → α → Except String α,
      maxAttemptsN { stage with handler := g } = 0 := by
    intro g
    unfold maxAttemptsN
    simp only []
    rw [if_pos hro]
    omega
  refine ⟨h0, by rw [h0]; rfl, hexe, ?_⟩
  intro g
  rw [hexe]
  unfold executeStage
  rw [h0g g]
  rfl

def c10Stage : PipelineStage Nat :=
  { name := "neg", handler := fun _ d => Except.ok d, description := "",
    required := true, retry_on_error := true, max_retries := -1 }

theorem C10_negative_retries_witness :
    maxAttemptsN c10Stage = 0 ∧
    attemptLoop c10Stage.handler 5 0 (maxAttemptsN c10Stage) = none ∧
    executeStage demoOrch pureWorld 0 c10Stage 5 =
      Except.ok
        ({ stage_name := c10Stage.name, status := "error", output := none,
           error := some "Unknown error", duration_ms := 0,
           timestamp := "" }, []) ∧
    (∀ g : Nat → Nat → Except String Nat,
      executeStage demoOrch pureWorld 0 { c10Stage with handler := g } 5 =
        executeStage demoOrch pureWorld 0 c10Stage 5) :=
  C10_negative_retries demoOrch pureWorld 0 c10Stage 5 rfl (by decide)

/-- When every stage's handler always succeeds and every stage's attempt
budget is positive, the stage loop completes with exactly one
`stage_execute` audit event per stage when the audit logger is configured,
and none otherwise. -/
theorem runStages_allOk_audit (o : Orchestrator α) (w : World α)
    (haud : ∀ ev, w.auditFail ev = none) :
    ∀ (stages : List (PipelineStage α)),
    (∀ s ∈ stages, 0 < maxAttemptsN s ∧
      ∀ k d, ∃ out, s.handler k d = Except.ok out) →
    ∀ (idx : Nat) (data : α),
    ∃ results out tr,
      runStages o w stages idx data = Except.ok (results, out, tr) ∧
      (auditEvents tr).map (fun ev => ev.action) =
        (if o.has_audit then stages.map (fun _ => "stage_execute")
         else []) := by
  intro stages
  induction stages with
  | nil =>
    intro _ idx data
    refine ⟨[], data, [], rfl, ?_⟩
    cases o.has_audit <;> simp [auditEvents]
  | cons stage rest ih =>
    intro hst idx data
    rcases hst stage (List.mem_cons_self stage rest) with ⟨hfuel, hok⟩
    rcases attemptLoop_allOk stage.handler data hok (maxAttemptsN stage) 0
      hfuel with ⟨out, hloop⟩
    have h1 := emitAudit_pure o w haud
      { action := "stage_execute", actor := o.name, object_type := "stage",
        object_id := stage.name, result := "ok",
        details := [("attempts", DValue.nat 1),
                    ("duration_ms", DValue.nat (w.stageDur idx))] }
    have hstep : ∃ res tr1,
        executeStage o w idx stage data = Except.ok (res, tr1) ∧
        res.status = "ok" ∧ res.output = some out ∧
        (auditEvents tr1).map (fun ev => ev.action) =
          (if o.has_audit then ["stage_execute"] else []) := by
      refine ⟨{ stage_name := stage.name, status := "ok",
                output := some out, error := none,
                duration_ms := w.stageDur idx,
                timestamp := w.stageTs idx },
              (if o.has_audit then
                [Effect.audit
                  { action := "stage_execute", actor := o.name,
                    object_type := "stage", object_id := stage.name,
                    result := "ok",
                    details := [("attempts", DValue.nat 1),
                                ("duration_ms",
                                  DValue.nat (w.stageDur idx))] }]
               else []), ?_, rfl, rfl, ?_⟩
      · unfold executeStage
        rw [hloop]
        simp only []
        rw [h1]
      · cases ha : o.has_audit <;> simp [ha, auditEvents]
    rcases hstep with ⟨res, tr1, hex, hok2, hout2, htr1⟩
    rcases ih (fun s hs => hst s (List.mem_cons_of_mem stage hs)) (idx + 1)
      out with ⟨rs, d, tr2, hrun, htr2⟩
    have hne : ¬(res.status = "error") := by
      rw [hok2]
      decide
    have hgd : res.output.getD data = out := by
      rw [hout2]
      rfl
    refine ⟨res :: rs, d, tr1 ++ tr2, ?_, ?_⟩
    · unfold runStages
      rw [hex]
      simp only []
      rw [if_neg hne, hgd, hrun]
    · rw [auditEvents_append, List.map_append, htr1, htr2]
      cases ha : o.has_audit <;> simp [ha]

/-- C8: with an audit emitter configured, an `execute` call on a pipeline
of `N` stages that all succeed emits exactly `N + 2` audit events —
`pipeline_start`, exactly one `stage_execute` per stage, and
`pipeline_complete` — and with no audit emitter configured it emits zero
audit events and still completes normally.  In addition, one stage
execution emits at most one audit event, never one per retry attempt. -/
theorem C8_audit_cardinality (o : Orchestrator α) (w : World α) (x : α)
    (haud : ∀ ev, w.auditFail ev = none)
    (hsave : ∀ n r, w.saveFail n r = none)
    (hstages : ∀ s ∈ o.stages, 0 < maxAttemptsN s ∧
      ∀ k d, ∃ out, s.handler k d = Except.ok out) :
    (∃ pr tr, execute o w x = Except.ok (pr, tr) ∧
      (auditEvents tr).map (fun ev => ev.action) =
        (if o.has_audit then
          "pipeline_start" ::
            (o.stages.map fun _ => "stage_execute") ++
              ["pipeline_complete"]
         else [])) ∧
    (∀ idx stage input res evs,
      executeStage o w idx stage input = Except.ok (res, evs) →
      (auditEvents evs).length ≤ 1) := by
  constructor
  · rcases runStages_allOk_audit o w haud o.stages hstages 0 x with
      ⟨results, current, trs, hrun, htrs⟩
    have h0 := emitAudit_pure o w haud (startEvent o)
    have h2 := emitAudit_pure o w haud (completeEvent o w results)
    refine ⟨mkResult o w results current,
      (if o.has_audit then [Effect.audit (startEvent o)] else []) ++ trs ++
        [Effect.save o.name (mkResult o w results current)] ++
        (if o.has_audit then [Effect.audit (completeEvent o w results)]
         else []),
      ?_, ?_⟩
    · unfold execute
      rw [h0, hrun]
      simp only []
      rw [hsave o.name (mkResult o w results current), h2]
    · rw [auditEvents_append, auditEvents_append, auditEvents_append]
      cases ha : o.has_audit <;>
        rw [ha] at htrs <;>
        simp [auditEvents, htrs, startEvent, completeEvent]
  · intro idx stage input res evs hex
    rcases (executeStage_inv o w idx stage input res evs hex).2.2.2.2.2 with
      hevs | ⟨ev, hevs, _⟩ <;> subst hevs <;> simp [auditEvents]

def c8Stage1 : PipelineStage Nat :=
  { name := "a", handler := fun _ d => Except.ok (d + 1),
    description := "", required := true, retry_on_error := false,
    max_retries := 3 }

def c8Stage2 : PipelineStage Nat :=
  { name := "b", handler := fun _ d => Except.ok (d * 3),
    description := "", required := true, retry_on_error := true,
    max_retries := 2 }

def c8Orch : Orchestrator Nat :=
  { name := "p8", mode := "TEST", has_audit := true,
    stages := [c8Stage1, c8Stage2] }

theorem C8_audit_cardinality_witness :
    (∃ pr tr, execute c8Orch pureWorld 5 = Except.ok (pr, tr) ∧
      (auditEvents tr).map (fun ev => ev.action) =
        (if c8Orch.has_audit then
          "pipeline_start" ::
            (c8Orch.stages.map fun _ => "stage_execute") ++
              ["pipeline_complete"]
         else [])) ∧
    (∀ idx stage input res evs,
      executeStage c8Orch pureWorld idx stage input =
        Except.ok (res, evs) →
      (auditEvents evs).length ≤ 1) :=
  C8_audit_cardinality c8Orch pureWorld 5 (fun _ => rfl) (fun _ _ => rfl)
    (by
      intro s hs
      rcases List.mem_cons.mp hs with h | hs2
      · subst h
        exact ⟨by decide, fun k d => ⟨d + 1, rfl⟩⟩
      · rcases List.mem_cons.mp hs2 with h | hs3
        · subst h
          exact ⟨by decide, fun k d => ⟨d * 3, rfl⟩⟩
        · exact absurd hs3 (List.not_mem_nil s))

/-- When the attempt budget is zero (retry enabled with negative
`max_retries`), the loop body never runs and the fallback result is
returned. -/
theorem executeStage_zero_attempts (o : Orchestrator α) (w : World α)
    (idx : Nat) (stage : PipelineStage α) (input : α)
    (hro : stage.retry_on_error = true) (hneg : stage.max_retries < 0) :
    executeStage o w idx stage input =
      Except.ok
        ({ stage_name := stage.name, status := "error", output := none,
           error := some "Unknown error", duration_ms := 0,
           timestamp := "" }, []) := by
  have h0 : maxAttemptsN stage = 0 := by
    unfold maxAttemptsN
    rw [if_pos hro]
    omega
  unfold executeStage
  rw [h0]
  rfl

/-- The orchestrator of the registration counterexample, before and after
registering a stage with `max_retries = -1`. -/
def c2Base : Orchestrator Nat :=
  { name := "p2", mode := "TEST", has_audit := false, stages := [] }

def c2Handler : Nat → Nat → Except String Nat :=
  fun _ d => Except.ok (d + 1)

def c2Orch : Orchestrator Nat :=
  add_stage c2Base "s" c2Handler "" true true (-1)

/-- C2 counterexample: the `add_stage` call with `max_retries = -1` does
not fail — it appends the stage — and the negative `max_retries` does reach
execution: `execute` runs the stage and records the fallback error result
for it.  This contradicts the claim that such a call fails and that a
negative `maxRetries` never reaches execution. -/
theorem C2_counterexample :
    c2Orch.stages.length = 1 ∧
    execute c2Orch pureWorld 0 =
      Except.ok
        ({ pipeline := "p2", status := "error", mode := "TEST",
           output := 0,
           stages := [{ stage_name := "s", status := "error",
                        output := none, error := some "Unknown error",
                        duration_ms := 0, timestamp := "" }],
           metadata := { start_time := "", end_time := "",
                         duration_ms := 0, total_stages := 1,
                         successful_stages := 0, failed_stages := 1 } },
         [Effect.save "p2"
           { pipeline := "p2", status := "error", mode := "TEST",
             output := 0,
             stages := [{ stage_name := "s", status := "error",
                          output := none, error := some "Unknown error",
                          duration_ms := 0, timestamp := "" }],
             metadata := { start_time := "", end_time := "",
                           duration_ms := 0, total_stages := 1,
                           successful_stages := 0,
                           failed_stages := 1 } }]) :=
  ⟨rfl, rfl⟩

/-- C2 (amended): `add_stage` performs no validation and never fails — for
every argument list, including a negative `max_retries`, it succeeds and
appends exactly one stage built from the arguments; a stage so registered
with retry enabled and negative `max_retries` does reach execution, where
the attempt loop never runs and the fallback error result is produced. -/
theorem C2_add_stage_total (o : Orchestrator α) (n : String)
    (h : Nat → α → Except String α) (d : String) (req retry : Bool)
    (mr : Int) (hret : retry = true) (hmr : mr < 0) (w : World α) (x : α) :
    (add_stage o n h d req retry mr).stages =
      o.stages ++
        [{ name := n, handler := h, description := d, required := req,
           retry_on_error := retry, max_retries := mr }] ∧
    executeStage (add_stage o n h d req retry mr) w o.stages.length
      { name := n, handler := h, description := d, required := req,
        retry_on_error := retry, max_retries := mr } x =
      Except.ok
        ({ stage_name := n, status := "error", output := none,
           error := some "Unknown error", duration_ms := 0,
           timestamp := "" }, []) :=
  ⟨rfl,
   executeStage_zero_attempts (add_stage o n h d req retry mr) w
     o.stages.length
     { name := n, handler := h, description := d, required := req,
       retry_on_error := retry, max_retries := mr } x hret hmr⟩

theorem C2_add_stage_total_witness :
    (add_stage c2Base "s" c2Handler "" true true (-1)).stages =
      c2Base.stages ++
        [{ name := "s", handler := c2Handler, description := "",
           required := true, retry_on_error := true,
           max_retries := -1 }] ∧
    executeStage (add_stage c2Base "s" c2Handler "" true true (-1))
      pureWorld c2Base.stages.length
      { name := "s", handler := c2Handler, description := "",
        required := true, retry_on_error := true, max_retries := -1 } 0 =
      Except.ok
        ({ stage_name := "s", status := "error", output := none,
           error := some "Unknown error", duration_ms := 0,
           timestamp := "" }, []) :=
  C2_add_stage_total c2Base "s" c2Handler "" true true (-1) rfl (by decide)
    pureWorld 0

/-- The spec's retry-success scenario: the handler fails on the first two
invocations and succeeds on the third; retry enabled, `max_retries = 3`. -/
def c3Handler : Nat → Nat → Except String Nat :=
  fun k d =>
    if k < 3 then Except.error "Temporary error" else Except.ok (d + 7)

def c3Stage : PipelineStage Nat :=
  { name := "flaky", handler := c3Handler, description := "",
    required := true, retry_on_error := true, max_retries := 3 }

def c3Orch : Orchestrator Nat :=
  { name := "p3", mode := "TEST", has_audit := true, stages := [c3Stage] }

def c3Res : StageResult Nat :=
  { stage_name := "flaky", status := "ok", output := some 12,
    error := none, duration_ms := 0, timestamp := "" }

def c3Ev : AuditEvent Nat :=
  { action := "stage_execute", actor := "p3", object_type := "stage",
    object_id := "flaky", result := "ok",
    details := [("attempts", DValue.nat 3), ("duration_ms", DValue.nat 0)] }

/-- C3 counterexample: in the spec's own retry scenario (fails twice,
succeeds on the third invocation, `retry_on_error = true`,
`max_retries = 3`) the produced stage result has status `ok` but carries no
`attempts` field at all — its dictionary form has exactly the six keys
`stage_name`, `status`, `output`, `error`, `duration_ms`, `timestamp` — and
the attempts count 3 appears only in the audit event's details. -/
theorem C3_counterexample :
    executeStage c3Orch pureWorld 0 c3Stage 5 =
      Except.ok (c3Res, [Effect.audit c3Ev]) ∧
    c3Res.status = "ok" ∧
    c3Res.to_dict.map Prod.fst =
      ["stage_name", "status", "output", "error", "duration_ms",
       "timestamp"] ∧
    ¬("attempts" ∈ c3Res.to_dict.map Prod.fst) ∧
    c3Ev.details.lookup "attempts" = some (DValue.nat 3) :=
  ⟨by rfl, rfl, rfl, by decide, by rfl⟩

/-- C3 (amended): the stage result carries no `attempts` field — its
dictionary form has exactly the keys `stage_name`, `status`, `output`,
`error`, `duration_ms`, `timestamp`.  Whenever the attempt loop runs at
least once and an audit emitter is configured, the number of handler
invocations (the final attempt counter, an integer ≥ 1) is carried in the
`stage_execute` audit event's details instead. -/
theorem C3_attempts_in_audit (o : Orchestrator α) (w : World α) (idx : Nat)
    (stage : PipelineStage α) (input : α) (res : StageResult α)
    (evs : List (Effect α)) (hfuel : 0 < maxAttemptsN stage)
    (hex : executeStage o w idx stage input = Except.ok (res, evs)) :
    res.to_dict.map Prod.fst =
      ["stage_name", "status", "output", "error", "duration_ms",
       "timestamp"] ∧
    ¬("attempts" ∈ res.to_dict.map Prod.fst) ∧
    (o.has_audit = true → ∃ ev r k,
      evs = [Effect.audit ev] ∧
      attemptLoop stage.handler input 0 (maxAttemptsN stage) =
        some (r, k) ∧
      ev.details.lookup "attempts" = some (DValue.nat k) ∧ 1 ≤ k) := by
  have hkeys : res.to_dict.map Prod.fst =
      ["stage_name", "status", "output", "error", "duration_ms",
       "timestamp"] := rfl
  refine ⟨hkeys, by rw [hkeys]; decide, ?_⟩
  intro ha
  rcases attemptLoop_spec stage.handler input (maxAttemptsN stage) 0 hfuel
    with ⟨r, k, hloop, hk1, _, _, _⟩
  unfold executeStage at hex
  rw [hloop] at hex
  cases r with
  | ok out =>
    simp only [] at hex
    rcases hem : emitAudit o w
      { action := "stage_execute", actor := o.name,
        object_type := "stage", object_id := stage.name, result := "ok",
        details := [("attempts", DValue.nat k),
                    ("duration_ms", DValue.nat (w.stageDur idx))] } with
      msg | l
    · rw [hem] at hex
      exact absurd hex (by simp)
    · rw [hem] at hex
      simp only [Except.ok.injEq, Prod.mk.injEq] at hex
      rcases emitAudit_inv _ _ _ _ hem with ⟨_, hl⟩ | ⟨hfalse, _⟩
      · subst hl
        exact ⟨_, Except.ok out, k, hex.2.symm, hloop, by rfl, hk1⟩
      · rw [ha] at hfalse
        exact absurd hfalse (by simp)
  | error e =>
    simp only [] at hex
    rcases hem : emitAudit o w
      { action := "stage_execute", actor := o.name,
        object_type := "stage", object_id := stage.name, result := "error",
        details := [("error", DValue.str e),
                    ("attempts", DValue.nat k),
                    ("duration_ms", DValue.nat (w.stageDur idx)),
                    ("traceback", DValue.str (w.stageTb idx))] } with
      msg | l
    · rw [hem] at hex
      exact absurd hex (by simp)
    · rw [hem] at hex
      simp only [Except.ok.injEq, Prod.mk.injEq] at hex
      rcases emitAudit_inv _ _ _ _ hem with ⟨_, hl⟩ | ⟨hfalse, _⟩
      · subst hl
        exact ⟨_, Except.error e, k, hex.2.symm, hloop, by rfl, hk1⟩
      · rw [ha] at hfalse
        exact absurd hfalse (by simp)

theorem C3_attempts_in_audit_witness :
    c3Res.to_dict.map Prod.fst =
      ["stage_name", "status", "output", "error", "duration_ms",
       "timestamp"] ∧
    ¬("attempts" ∈ c3Res.to_dict.map Prod.fst) ∧
    (c3Orch.has_audit = true → ∃ ev r k,
      ([Effect.audit c3Ev] : List (Effect Nat)) = [Effect.audit ev] ∧
      attemptLoop c3Stage.handler 5 0 (maxAttemptsN c3Stage) =
        some (r, k) ∧
      ev.details.lookup "attempts" = some (DValue.nat k) ∧ 1 ≤ k) :=
  C3_attempts_in_audit c3Orch pureWorld 0 c3Stage 5 c3Res
    [Effect.audit c3Ev] (by decide) (by rfl)

end SurplusPipeline
